import Mathlib

/-!
Verification of the overlay application engine of this repository
(`src/overlay-applier.ts`), a reference implementation of the OpenAPI Overlay
Specification used to patch an OpenAPI document before tool generation.

The engine is shallowly embedded:

* Documents are the JSON-compatible trees the engine manipulates (`Json`
  below); JS objects are insertion-ordered association lists, exactly the
  observable order `Object.keys` iterates.
* The engine's in-place mutations are modelled by explicit value passing:
  every function that mutates a document in the source returns the new
  document value here.  Thrown JS exceptions are modelled with
  `Except String`.
* The JSONPath queries the engine delegates to the `jsonpath-plus` library
  are modelled by an executable parser/evaluator for the query fragment the
  engine exercises: root `$`, dot member access `.name`, bracket member
  access with single quotes, numeric index `[n]`, and the equality filter
  form used for parameters.  A query outside this fragment evaluates to a
  parse error, which the engine's per-action catch turns into a no-op,
  exactly as a query rejected by the library would be.
* The `deepmerge` npm package (v4 semantics, as depended on by the source)
  is translated in full, including its default array strategy
  (concatenation) and its treatment of non-mergeable targets.

One behavioural fact about `jsonpath-plus` is load-bearing and is recorded
where it is used: with `resultType: 'all'` each returned match carries its
`path` as a *serialized string* (for example `$['paths']['/pets']['get']`),
never as an array — the library stringifies its internal path array before
returning (`_getPreferredOutput` applies `JSONPath.toPathString`).  The
engine's generic per-match loop guards every iteration with
`Array.isArray(match.path)`, which is therefore false for every match, so
the loop body is unreachable and the loop returns the document unchanged.
-/

set_option maxHeartbeats 1600000

namespace OverlaySpec

/-- A JSON-compatible document tree: the values the engine manipulates.
Objects are insertion-ordered association lists, mirroring JS object key
order; numbers are integers (all values exercised by the engine's tests and
the specification are integral). -/
inductive Json where
  | null : Json
  | bool (b : Bool) : Json
  | num (n : Int) : Json
  | str (s : String) : Json
  | arr (items : List Json) : Json
  | obj (fields : List (String × Json)) : Json

namespace Json

/-- First binding of a key in an object, as JS property lookup sees it. -/
def lookupKey : List (String × Json) → String → Option Json
  | [], _ => none
  | (k', v) :: rest, k => if k' = k then some v else lookupKey rest k

/-- JS assignment `o[k] = v`: overwrite the existing binding in place
(keeping its position) or append a fresh one at the end. -/
def setKey : List (String × Json) → String → Json → List (String × Json)
  | [], k, v => [(k, v)]
  | (k', v') :: rest, k, v =>
      if k' = k then (k, v) :: rest else (k', v') :: setKey rest k v

end Json

/-! ### Deep clone (`OverlayApplier.clone`, overlay-applier.ts:80-84)

The source uses `structuredClone` (falling back to a
`JSON.parse(JSON.stringify(...))` round trip); on JSON-compatible trees both
produce a structurally identical copy, modelled as a recursive rebuild. -/

mutual

/-- Deep clone of a document tree. -/
def clone : Json → Json
  | .null => .null
  | .bool b => .bool b
  | .num n => .num n
  | .str s => .str s
  | .arr xs => .arr (cloneList xs)
  | .obj kvs => .obj (cloneFields kvs)

/-- Clone of every element of an array. -/
def cloneList : List Json → List Json
  | [] => []
  | x :: xs => clone x :: cloneList xs

/-- Clone of every binding of an object. -/
def cloneFields : List (String × Json) → List (String × Json)
  | [] => []
  | (k, v) :: rest => (k, clone v) :: cloneFields rest

end

/-! ### deepmerge (npm `deepmerge` v4, as called by overlay-applier.ts)

`deepmerge(target, source)`:
* arrays on both sides: the array-merge strategy.  The engine only ever uses
  concatenation — the library default and the explicit
  `arrayMerge: (dest, src) => dest.concat(src)` option both append the
  source elements after the target's;
* array on exactly one side: the (cloned) source wins;
* source an object: `mergeObject` — start from the target's bindings (when
  the target is a mergeable object; otherwise from nothing) and fold the
  source's bindings over them, recursing only when the key is present on
  the target and the source value is itself mergeable (object or array),
  otherwise taking the source value;
* both non-mergeable non-arrays: `mergeObject` of two key-less values, an
  empty object.  (No call site of the engine reaches this case.) -/

mutual

/-- The `deepmerge` function of the npm package, with the concatenating
array strategy used at every call site of the engine. -/
def deepmerge : Json → Json → Json
  | t, .arr ss =>
      match t with
      | .arr ts => .arr (ts ++ ss)
      | _ => .arr ss
  | t, .obj skvs =>
      match t with
      | .arr _ => .obj skvs
      | .obj tkvs => .obj (mergeEntries tkvs tkvs skvs)
      | _ => .obj skvs
  | t, s =>
      match t with
      | .arr _ => s
      | .obj tkvs => .obj tkvs
      | _ => .obj []

/-- The source-key fold of `mergeObject`: `dest` starts as the target's
bindings and each source binding is assigned over it. -/
def mergeEntries (tkvs : List (String × Json)) :
    List (String × Json) → List (String × Json) → List (String × Json)
  | dest, [] => dest
  | dest, (k, sv) :: rest =>
      let dest' :=
        match Json.lookupKey tkvs k, sv with
        | some tv, .obj _ => Json.setKey dest k (deepmerge tv sv)
        | some tv, .arr _ => Json.setKey dest k (deepmerge tv sv)
        | _, _ => Json.setKey dest k sv
      mergeEntries tkvs dest' rest

end

/-! ### String utilities

The engine branches on its query expressions with `String.prototype`
tests (`startsWith`, `endsWith`, `includes`) and two regular expressions.
These are modelled with explicit character-list scans so every test is
executable by the kernel.  The single-quote character is built from its
code point so it can be spelled uniformly in patterns. -/

/-- The single-quote character `'` (code point 39). -/
def squote : Char := Char.ofNat 39

/-- The single-quote character as a one-character string, used to spell the
engine's query expressions in concrete statements. -/
def squoteStr : String := String.mk [squote]

/-- Test that `pat` is an initial segment of `s` (both as char lists). -/
def begCh : List Char → List Char → Bool
  | [], _ => true
  | _ :: _, [] => false
  | p :: ps, c :: cs => p = c && begCh ps cs

/-- JS `String.prototype.includes`: `pat` occurs somewhere in `s`. -/
def hasSubCh (pat : List Char) : List Char → Bool
  | [] => begCh pat []
  | c :: cs => begCh pat (c :: cs) || hasSubCh pat cs

/-- JS `s.startsWith(pat)`. -/
def strStarts (s pat : String) : Bool := begCh pat.toList s.toList

/-- JS `s.endsWith(pat)`. -/
def strEnds (s pat : String) : Bool := begCh pat.toList.reverse s.toList.reverse

/-- JS `s.includes(pat)`. -/
def strHasSub (s pat : String) : Bool := hasSubCh pat.toList s.toList

/-- Capture of `([^']+)'` followed by the given tail: take at least one
non-quote character up to the next quote, and require `tailReq` right after
that quote.  Returns the captured characters. -/
def captureToQuote (tailReq : List Char) : List Char → Option (List Char)
  | [] => none
  | c :: cs =>
      if c = squote then none
      else
        match spanToQuote cs with
        | (body, rest) =>
            match rest with
            | r :: rs => if r = squote && begCh tailReq rs then some (c :: body) else none
            | [] => none
where
  /-- Characters before the next quote, and the remainder starting at it. -/
  spanToQuote : List Char → List Char × List Char
    | [] => ([], [])
    | c :: cs =>
        if c = squote then ([], c :: cs)
        else
          let (body, rest) := spanToQuote cs
          (c :: body, rest)

/-- First match of `pre'([^']+)'tail` anywhere in the list, scanning
positions left to right exactly as a regular-expression search does. -/
def scanCapture (pre tailReq : List Char) : List Char → Option (List Char)
  | [] => none
  | c :: cs =>
      match dropBeg pre (c :: cs) with
      | some rest =>
          match captureToQuote tailReq rest with
          | some body => some body
          | none => scanCapture pre tailReq cs
      | none => scanCapture pre tailReq cs
where
  /-- Remainder of `s` after the initial segment `pat`, when it is one. -/
  dropBeg : List Char → List Char → Option (List Char)
    | [], s => some s
    | _ :: _, [] => none
    | p :: ps, c :: cs => if p = c then dropBeg ps cs else none

/-- The literal pattern characters of `$.paths['`. -/
def pathsCapturePre : List Char := "$.paths[".toList ++ [squote]

/-- The regex `\$\.paths\['([^']+)'\]` of overlay-applier.ts:150/161: the
path name quoted inside the first `$.paths['...']` occurrence. -/
def extractPathQ (s : String) : Option String :=
  (scanCapture pathsCapturePre [']'] s.toList).map List.asString

/-- The literal pattern characters of `name=='`. -/
def nameCapturePre : List Char := "name==".toList ++ [squote]

/-- The regex `name=='([^']+)'` of overlay-applier.ts:162: the parameter
name quoted after the first `name==` occurrence. -/
def extractNameQ (s : String) : Option String :=
  (scanCapture nameCapturePre [] s.toList).map List.asString

/-- HTTP method selection of overlay-applier.ts:167-170: substring tests on
the expression, defaulting to `get`. -/
def methodOf (expr : String) : String :=
  if strHasSub expr ".get." then "get"
  else if strHasSub expr ".post." then "post"
  else if strHasSub expr ".put." then "put"
  else if strHasSub expr ".delete." then "delete"
  else "get"

/-! ### JSONPath fragment (`jsonpath-plus` as exercised by the engine)

Queries are parsed into segments and evaluated against the document.  The
grammar covers root `$`, `.name`, `['name']`, `[n]` and
`[?(@.field=='value')]`; anything else is a parse error, which the engine's
per-action catch treats exactly like a query the library throws on. -/

/-- One step of a path query. -/
inductive Seg where
  | member (k : String) : Seg
  | index (n : Nat) : Seg
  | filterEq (field value : String) : Seg
  deriving DecidableEq

/-- Name characters accepted after a dot. -/
def isNameCh (c : Char) : Bool :=
  c.isAlpha || c.isDigit || c = '_' || c = '$'

/-- Segment parser, structural on a fuel counter (every segment consumes at
least one character, so fuel equal to the input length always suffices). -/
def parseSegs : Nat → List Char → Except String (List Seg)
  | _, [] => .ok []
  | 0, _ :: _ => .error "jsonpath: parser fuel exhausted"
  | fuel + 1, '.' :: rest =>
      match rest with
      | '.' :: _ => .error "jsonpath: recursive descent unsupported"
      | _ =>
          let name := rest.takeWhile isNameCh
          if name.isEmpty then .error "jsonpath: empty member name"
          else do
            let segs ← parseSegs fuel (rest.drop name.length)
            .ok (.member name.asString :: segs)
  | fuel + 1, '[' :: rest =>
      if begCh [squote] rest then
        let body := (rest.drop 1).takeWhile (fun c => c ≠ squote)
        let after := (rest.drop 1).drop body.length
        match after with
        | q :: ']' :: rest' =>
            if q = squote then do
              let segs ← parseSegs fuel rest'
              .ok (.member body.asString :: segs)
            else .error "jsonpath: unterminated quoted member"
        | _ => .error "jsonpath: unterminated quoted member"
      else if begCh "?(@.".toList rest then
        let fieldPart := (rest.drop 4).takeWhile isNameCh
        let afterField := (rest.drop 4).drop fieldPart.length
        if fieldPart.isEmpty then .error "jsonpath: empty filter field"
        else
          match afterField with
          | '=' :: '=' :: q :: valRest =>
              if q = squote then
                let valPart := valRest.takeWhile (fun c => c ≠ squote)
                match valRest.drop valPart.length with
                | q' :: ')' :: ']' :: rest' =>
                    if q' = squote then do
                      let segs ← parseSegs fuel rest'
                      .ok (.filterEq fieldPart.asString valPart.asString :: segs)
                    else .error "jsonpath: bad filter"
                | _ => .error "jsonpath: bad filter"
              else .error "jsonpath: bad filter"
          | _ => .error "jsonpath: bad filter"
      else
        let digits := rest.takeWhile Char.isDigit
        if digits.isEmpty then .error "jsonpath: bad bracket"
        else
          match rest.drop digits.length with
          | ']' :: rest' => do
              let segs ← parseSegs fuel rest'
              .ok (.index (digits.asString.toNat?.getD 0) :: segs)
          | _ => .error "jsonpath: bad bracket"
  | _ + 1, _ :: _ => .error "jsonpath: unexpected character"

/-- Parse a whole query: a `$` root followed by segments. -/
def parseJP (s : String) : Except String (List Seg) :=
  match s.toList with
  | '$' :: rest => parseSegs rest.length rest
  | _ => .error "jsonpath: query must start at the root"

/-- Evaluate one segment against a set of current nodes, in document
order.  Member access on an object follows the binding when present (a
`null` value is still a match); on an array a numeric name indexes it; a
filter selects the elements of an array whose named field equals the given
string. -/
def evalSeg (nodes : List Json) : Seg → List Json
  | .member k =>
      nodes.filterMap fun n =>
        match n with
        | .obj kvs => Json.lookupKey kvs k
        | .arr xs =>
            match k.toNat? with
            | some i => xs.get? i
            | none => none
        | _ => none
  | .index i =>
      nodes.filterMap fun n =>
        match n with
        | .arr xs => xs.get? i
        | _ => none
  | .filterEq f v =>
      nodes.flatMap fun n =>
        match n with
        | .arr xs =>
            xs.filter fun x =>
              match x with
              | .obj kvs =>
                  match Json.lookupKey kvs f with
                  | some (.str s) => s = v
                  | _ => false
              | _ => false
        | _ => []

/-- The values matched by a query: `JSONPath({path, json, resultType:
'all'})` of the engine, projected to the match values.  (The serialized
`path` strings the library also returns are only ever consulted by the dead
`Array.isArray` guard; see `processMatches`.) -/
def evalJP (expr : String) (doc : Json) : Except String (List Json) :=
  match parseJP expr with
  | .error e => .error e
  | .ok segs => .ok (segs.foldl evalSeg [doc])

/-! ### JS property reads and writes

The special-case branches of `applyAction` read and assign properties with
ordinary JS member access.  Reads of a property of `null` (or of a missing
value, JS `undefined`) throw a `TypeError`; reads off other primitives
yield `undefined`.  Strict-mode assignment to a primitive or to
`null`/`undefined` throws.  `Option Json` stands for a possibly-`undefined`
JS value. -/

/-- Read property `k` of a defined value: `TypeError` on `null`, binding
lookup on objects, numeric indexing on arrays, `undefined` on other
primitives. -/
def jsGetF : Json → String → Except String (Option Json)
  | .null, _ => .error "TypeError: cannot read properties of null"
  | .obj kvs, k => .ok (Json.lookupKey kvs k)
  | .arr xs, k =>
      .ok (match k.toNat? with
           | some i => xs.get? i
           | none => none)
  | _, _ => .ok none

/-- Strict-mode assignment `v[k] = x`.  Objects bind the key; arrays accept
numeric keys within bounds (a non-numeric key becomes a JS expando
property, invisible in the JSON tree, so the tree is unchanged);
`null` and other primitives throw. -/
def jsSetF : Json → String → Json → Except String Json
  | .obj kvs, k, x => .ok (.obj (Json.setKey kvs k x))
  | .arr xs, k, x =>
      .ok (match k.toNat? with
           | some i => if i < xs.length then .arr (xs.set i x) else .arr xs
           | none => .arr xs)
  | .null, _, _ => .error "TypeError: cannot set properties of null"
  | _, _, _ => .error "TypeError: cannot create property on a primitive"

/-! ### The overlay data model (overlay-applier.ts:39-70)

JS field absence and JS `undefined` coincide for every check the engine
performs, so an absent `update` is `none`; an absent or empty `overlay`
or `target` string is `""` (both are falsy, which is all the engine tests);
an absent `remove` defaults to `false` at the destructuring. -/

/-- Single action item. -/
structure Action where
  /-- JSONPath expression selecting nodes in the target document; `""`
  models an absent (or empty, equally falsy) field. -/
  target : String
  /-- Human-readable description; never consulted by the engine. -/
  description : Option String := none
  /-- Object or value to merge into the selected node(s). -/
  update : Option Json := none
  /-- Remove selected node(s); `false` models an absent field. -/
  remove : Bool := false

/-- Root overlay object. -/
structure OverlayDoc where
  /-- Overlay spec version, e.g. `1.0.0`; `""` models an absent (or empty,
  equally falsy) field, the shape of a legacy overlay. -/
  overlay : String
  /-- Overlay info; never consulted by `apply`. -/
  info : Option Json := none
  /-- Ordered action list. -/
  actions : List Action

/-- JS test `update && typeof update === 'object'`: the update value is
present, non-null, and an object or array. -/
def updObj? : Option Json → Option Json
  | some (.obj kvs) => some (.obj kvs)
  | some (.arr xs) => some (.arr xs)
  | _ => none

/-! ### The special-case branches of `applyAction` -/

/-- Lines 142-145: `doc.info = deepmerge(doc.info, update)`.  The read
throws only if `doc` is `null`; `deepmerge(undefined, u)` of an object `u`
is a clone of `u`. -/
def specialInfo (doc : Json) (u : Json) : Except String Json :=
  match jsGetF doc "info" with
  | .error e => .error e
  | .ok g =>
      let merged := match g with
        | some tv => deepmerge tv u
        | none => u
      jsSetF doc "info" merged

/-- Lines 148-156: `doc.paths[path].get = deepmerge(doc.paths[path].get,
update)` for the extracted `path`.  Each read throws on `null`/`undefined`
bases; the final assignment throws on primitive bases — all before any
part of the document changes. -/
def specialPathsGet (doc : Json) (path : String) (u : Json) :
    Except String Json :=
  match jsGetF doc "paths" with
  | .error e => .error e
  | .ok none => .error "TypeError: cannot read properties of undefined"
  | .ok (some v1) =>
      match jsGetF v1 path with
      | .error e => .error e
      | .ok none => .error "TypeError: cannot read properties of undefined"
      | .ok (some v2) =>
          match jsGetF v2 "get" with
          | .error e => .error e
          | .ok o3 =>
              let merged := match o3 with
                | some tv => deepmerge tv u
                | none => u
              match jsSetF v2 "get" merged with
              | .error e => .error e
              | .ok v2' =>
                  match jsSetF v1 path v2' with
                  | .error e => .error e
                  | .ok v1' => jsSetF doc "paths" v1'

/-- The `params.findIndex((p) => p.name === paramName)` call of line 174:
first index (and element) whose `name` field is the given string.  The
`in` field of a parameter is never consulted.  Reading `p.name` of a
`null` element throws inside the callback. -/
def findParamIdx (nm : String) : List Json → Except String (Option (Nat × Json))
  | [] => .ok none
  | p :: rest =>
      match p with
      | .null => .error "TypeError: cannot read properties of null"
      | .obj kvs =>
          if (match Json.lookupKey kvs "name" with
              | some (.str s) => s = nm
              | _ => false : Bool) then .ok (some (0, p))
          else
            match findParamIdx nm rest with
            | .error e => .error e
            | .ok r => .ok (r.map fun (i, q) => (i + 1, q))
      | _ =>
          match findParamIdx nm rest with
          | .error e => .error e
          | .ok r => .ok (r.map fun (i, q) => (i + 1, q))

/-- Lines 159-182 core: find `doc.paths[path][method].parameters`, locate
the first parameter named `nm`, and deep-merge the update into it; when no
parameter of that name exists (`findIndex` returns `-1`) the document is
returned unchanged.  `parameters` must be an array for `findIndex` to
exist. -/
def specialParams (doc : Json) (path mthd nm : String) (u : Json) :
    Except String Json :=
  match jsGetF doc "paths" with
  | .error e => .error e
  | .ok none => .error "TypeError: cannot read properties of undefined"
  | .ok (some v1) =>
      match jsGetF v1 path with
      | .error e => .error e
      | .ok none => .error "TypeError: cannot read properties of undefined"
      | .ok (some v2) =>
          match jsGetF v2 mthd with
          | .error e => .error e
          | .ok none => .error "TypeError: cannot read properties of undefined"
          | .ok (some v3) =>
              match jsGetF v3 "parameters" with
              | .error e => .error e
              | .ok (some (.arr ps)) =>
                  (match findParamIdx nm ps with
                   | .error e => .error e
                   | .ok none => .ok doc
                   | .ok (some (i, pi)) =>
                       let ps' := ps.set i (deepmerge pi u)
                       match jsSetF v3 "parameters" (.arr ps') with
                       | .error e => .error e
                       | .ok v3' =>
                           match jsSetF v2 mthd v3' with
                           | .error e => .error e
                           | .ok v2' =>
                               match jsSetF v1 path v2' with
                               | .error e => .error e
                               | .ok v1' => jsSetF doc "paths" v1')
              | .ok _ => .error "TypeError: params.findIndex is not a function"

/-- Lines 184-234, the generic per-match loop.  Each match produced by the
query library carries its `path` as a serialized string (resultType `all`
stringifies the internal path array before returning), and the loop guards
every iteration with `continue` unless `Array.isArray(match.path)` — false
for every string — so the body that would splice, merge, or assign is never
entered and the loop leaves the document exactly as it was.  The unused
`update`/`remove` arguments keep the source signature visible. -/
def processMatches (doc : Json) (_matches : List Json) (_upd : Option Json)
    (_remove : Bool) : Json := doc

/-! ### `applyAction` and `apply` (overlay-applier.ts:116-241) -/

/-- Message of the line-118 version check. -/
def versionErrMsg : String :=
  "Overlay document missing required \"overlay\" version field"

/-- Message of the line-132 missing-target check. -/
def targetErrMsg : String :=
  "Action is missing required \"target\" field"

/-- The body of the `try` block of `applyAction` (lines 134-234): evaluate
the query, return unchanged on zero matches, then dispatch on the three
special-case branches before falling through to the (inert) generic loop.
An `.error` models a thrown exception. -/
def applyActionCore (doc : Json) (a : Action) : Except String Json :=
  match evalJP a.target doc with
  | .error e => .error e
  | .ok ms =>
      if ms.isEmpty then .ok doc
      else if a.target = "$.info" ∧ (updObj? a.update).isSome then
        specialInfo doc ((updObj? a.update).getD .null)
      else
        match
          (if strStarts a.target "$.paths[" && strEnds a.target "].get"
              && (updObj? a.update).isSome
           then extractPathQ a.target else none) with
        | some p => specialPathsGet doc p ((updObj? a.update).getD .null)
        | none =>
            match
              (if strHasSub a.target "parameters[?(@.name==" && (updObj? a.update).isSome
               then match extractPathQ a.target, extractNameQ a.target with
                    | some p, some n => some (p, n)
                    | _, _ => none
               else none) with
            | some (p, n) =>
                specialParams doc p (methodOf a.target) n ((updObj? a.update).getD .null)
            | none => .ok (processMatches doc ms a.update a.remove)

/-- `applyAction` (lines 130-241): reject a missing target before the
`try`; afterwards every exception is caught, logged (a side effect with no
bearing on the result), and the document is returned as it stood.  No
branch of the body changes the document before its first possible throw, so
a caught action is a strict no-op. -/
def applyActionE (doc : Json) (a : Action) : Except String Json :=
  if a.target = "" then .error targetErrMsg
  else
    match applyActionCore doc a with
    | .ok d => .ok d
    | .error _ => .ok doc

/-- The action loop of `apply` (lines 123-125), threading the working
document left to right. -/
def applyActions (doc : Json) : List Action → Except String Json
  | [] => .ok doc
  | a :: rest =>
      match applyActionE doc a with
      | .error e => .error e
      | .ok d => applyActions d rest

namespace OverlayApplier

/-- Public API `OverlayApplier.apply` (lines 116-127) on an already-parsed
target tree: check the `overlay` version field, deep-clone the target, and
fold the actions over the clone. -/
def apply (target : Json) (overlay : OverlayDoc) : Except String Json :=
  if overlay.overlay = "" then .error versionErrMsg
  else applyActions (clone target) overlay.actions

end OverlayApplier

/-- A single overlay carrying `A`'s metadata and `A`'s actions followed by
`B`'s, the combined overlay of the sequential-determinism property. -/
def combineOverlays (A B : OverlayDoc) : OverlayDoc :=
  { A with actions := A.actions ++ B.actions }

/-! ## Theorems -/

mutual

/-- Deep cloning preserves the tree: the copy is deeply equal to the
original. -/
theorem clone_id : (j : Json) → clone j = j
  | .null => rfl
  | .bool _ => rfl
  | .num _ => rfl
  | .str _ => rfl
  | .arr xs => by rw [clone, cloneList_id xs]
  | .obj kvs => by rw [clone, cloneFields_id kvs]

theorem cloneList_id : (l : List Json) → cloneList l = l
  | [] => rfl
  | x :: xs => by rw [cloneList, clone_id x, cloneList_id xs]

theorem cloneFields_id : (l : List (String × Json)) → cloneFields l = l
  | [] => rfl
  | (k, v) :: rest => by rw [cloneFields, clone_id v, cloneFields_id rest]

end

/-- With a present target, `applyAction` always succeeds: every exception of
the body is caught. -/
theorem applyActionE_ok (doc : Json) (a : Action) (h : a.target ≠ "") :
    ∃ d, applyActionE doc a = .ok d := by
  unfold applyActionE
  rw [if_neg h]
  cases applyActionCore doc a with
  | ok d => exact ⟨d, rfl⟩
  | error e => exact ⟨doc, rfl⟩

/-- When every action of a list has a target, the action loop never
fails. -/
theorem applyActions_ok (l : List Action) :
    ∀ doc : Json, (∀ a ∈ l, a.target ≠ "") → ∃ d, applyActions doc l = .ok d := by
  induction l with
  | nil => exact fun doc _ => ⟨doc, rfl⟩
  | cons a rest ih =>
      intro doc h
      obtain ⟨d, hd⟩ := applyActionE_ok doc a (h a (List.mem_cons_self a rest))
      simp only [applyActions]
      rw [hd]
      exact ih d fun b hb => h b (List.mem_cons_of_mem a hb)

/-- Without a truthy object/array `update` value, the body of `applyAction`
either returns the document unchanged or throws: the zero-match return, the
special-case guards (all requiring `update && typeof update === 'object'`),
and the inert generic loop leave nothing else. -/
theorem applyActionCore_inert (doc : Json) (a : Action)
    (h : updObj? a.update = none) :
    applyActionCore doc a = .ok doc ∨ ∃ e, applyActionCore doc a = .error e := by
  cases hev : evalJP a.target doc with
  | error e =>
      right
      exact ⟨e, by simp only [applyActionCore, hev]⟩
  | ok ms =>
      left
      by_cases hms : ms.isEmpty
      · simp [applyActionCore, hev, hms]
      · simp [applyActionCore, hev, hms, h, processMatches]

/-- Without a truthy object/array `update` value, `applyAction` is a strict
no-op. -/
theorem applyActionE_inert (doc : Json) (a : Action) (ht : a.target ≠ "")
    (hu : updObj? a.update = none) : applyActionE doc a = .ok doc := by
  unfold applyActionE
  rw [if_neg ht]
  rcases applyActionCore_inert doc a hu with hc | ⟨e, hc⟩ <;> rw [hc]

/-- The action loop over actions with targets and no truthy-object updates
returns the document unchanged. -/
theorem applyActions_inert (l : List Action) :
    ∀ doc : Json, (∀ a ∈ l, a.target ≠ "" ∧ updObj? a.update = none) →
      applyActions doc l = .ok doc := by
  induction l with
  | nil => exact fun doc _ => rfl
  | cons a rest ih =>
      intro doc h
      simp only [applyActions]
      rw [applyActionE_inert doc a (h a (List.mem_cons_self a rest)).1
        (h a (List.mem_cons_self a rest)).2]
      exact ih doc fun b hb => h b (List.mem_cons_of_mem a hb)

/-- Splitting the action loop over an appended list runs the first list and
threads its result into the second. -/
theorem applyActions_append (l1 l2 : List Action) :
    ∀ doc : Json, applyActions doc (l1 ++ l2)
      = (match applyActions doc l1 with
         | .error e => .error e
         | .ok d => applyActions d l2) := by
  induction l1 with
  | nil => exact fun doc => rfl
  | cons a rest ih =>
      intro doc
      simp only [List.cons_append, applyActions]
      cases applyActionE doc a with
      | error e => rfl
      | ok d => exact ih d

/-- The `overlay` metadata of the combined overlay is `A`'s. -/
theorem combineOverlays_overlay (A B : OverlayDoc) :
    (combineOverlays A B).overlay = A.overlay := rfl

/-! ## Claims -/

/-- Claim C1 (amended).  For every legacy overlay — one whose `overlay`
version field is absent (or empty; both are falsy for the line-118 check) —
and every target document, `apply` performs no structural merge pass at
all: it throws the missing-version error before cloning or touching the
target, so zero merging happens in the engine.  (The single structural
merge pass the claim describes exists only in the test mock
`openapi-overlays-js.js`, not in the engine under `src/`.) -/
theorem c1_legacy_overlay_rejected (t : Json) (o : OverlayDoc)
    (h : o.overlay = "") :
    OverlayApplier.apply t o = .error versionErrMsg := by
  unfold OverlayApplier.apply
  rw [if_pos h]

/-- Witness for C1: a concrete legacy overlay (info-only structural patch)
against a concrete target is rejected with the version error. -/
theorem c1_legacy_overlay_rejected_witness :
    OverlayApplier.apply (.obj [("info", .obj [("title", .str "Base API")])])
      { overlay := "", info := some (.obj [("title", .str "Patched API")]),
        actions := [] }
      = .error versionErrMsg :=
  c1_legacy_overlay_rejected _ _ rfl

/-- Counterexample for C1 as stated: for a concrete legacy overlay that
merely patches `info.title` over a concrete base, `apply` does not return
any merged document — it throws (returns the version error), so the claimed
single merge pass never runs. -/
theorem c1_legacy_merge_counterexample :
    OverlayApplier.apply
        (.obj [("info", .obj [("title", .str "Old"), ("version", .str "1.0.0")])])
        { overlay := "", info := some (.obj [("title", .str "New")]), actions := [] }
      = .error versionErrMsg
    ∧ ∀ merged : Json,
        OverlayApplier.apply
            (.obj [("info", .obj [("title", .str "Old"), ("version", .str "1.0.0")])])
            { overlay := "", info := some (.obj [("title", .str "New")]), actions := [] }
          ≠ .ok merged := by
  refine ⟨rfl, fun merged hm => ?_⟩
  rw [show OverlayApplier.apply
      (.obj [("info", .obj [("title", .str "Old"), ("version", .str "1.0.0")])])
      ({ overlay := "", info := some (.obj [("title", .str "New")]), actions := [] }
        : OverlayDoc)
      = .error versionErrMsg from rfl] at hm
  exact Except.noConfusion hm

/-- Claim C2 (amended).  The only structural validation `apply` performs is
the presence of the `overlay` version field (checked before the target is
cloned); the other conditions the claim lists are not validated at all.  In
particular an overlay every one of whose actions has a target but has
neither `update` nor `remove` is applied without any error, each action a
no-op, and the result equals the untouched target. -/
theorem c2_only_version_field_validated (t : Json) (o : OverlayDoc)
    (hver : o.overlay ≠ "")
    (hacts : ∀ a ∈ o.actions, a.target ≠ "" ∧ a.update = none ∧ a.remove = false) :
    OverlayApplier.apply t o = .ok t := by
  unfold OverlayApplier.apply
  rw [if_neg hver, clone_id]
  exact applyActions_inert o.actions t fun a ha =>
    ⟨(hacts a ha).1, by rw [(hacts a ha).2.1]; rfl⟩

/-- Witness for C2: a concrete overlay whose single action has neither
`update` nor `remove` applies cleanly and returns the target unchanged. -/
theorem c2_only_version_field_validated_witness :
    OverlayApplier.apply (.obj [("x", .num 5)])
      { overlay := "1.0.0", actions := [{ target := "$.x" }] }
      = .ok (.obj [("x", .num 5)]) :=
  c2_only_version_field_validated _ _ (by decide)
    (by
      intro a ha
      rw [List.mem_singleton] at ha
      subst ha
      exact ⟨by decide, rfl, rfl⟩)

/-- Counterexample for C2 as stated: an overlay whose action has neither
`update` nor `remove` is structurally invalid per the claim, yet `apply`
does not fail with any validation error — it succeeds and returns the
document. -/
theorem c2_validation_counterexample :
    OverlayApplier.apply (.obj [("a", .num 1)])
      { overlay := "1.0.0", actions := [{ target := "$.a" }] }
      = .ok (.obj [("a", .num 1)])
    ∧ ∀ e : String,
        OverlayApplier.apply (.obj [("a", .num 1)])
          { overlay := "1.0.0", actions := [{ target := "$.a" }] }
          ≠ .error e := by
  have happ : OverlayApplier.apply (.obj [("a", .num 1)])
      { overlay := "1.0.0", actions := [{ target := "$.a" }] }
      = .ok (.obj [("a", .num 1)]) := by
    rw [OverlayApplier.apply, if_neg (by decide), clone_id]
    rfl
  refine ⟨happ, fun e he => ?_⟩
  rw [happ] at he
  exact Except.noConfusion he

/-- Claim C3 (confirmed).  `apply` never mutates the caller's target: the
engine deep-clones the target before applying any action (first conjunct —
the definitional route of `apply` through `clone`), and the clone is deeply
equal to the original (second conjunct), so in this pure embedding — where
in-place mutation is rendered as value passing and all action mutations are
performed on the threaded clone — the caller's tree after `apply` is deeply
equal to its value before the call. -/
theorem c3_caller_document_preserved (t : Json) (o : OverlayDoc) :
    OverlayApplier.apply t o
      = (if o.overlay = "" then .error versionErrMsg
         else applyActions (clone t) o.actions)
    ∧ clone t = t :=
  ⟨rfl, clone_id t⟩

/-- Claim C4 (confirmed).  For a formal overlay whose actions all carry a
target, any exception raised by an action body is caught and that action is
a strict no-op (first conjunct: a body error yields the document exactly as
it was), and the whole application never throws (second conjunct). -/
theorem c4_action_errors_caught :
    (∀ (doc : Json) (a : Action) (e : String), a.target ≠ "" →
        applyActionCore doc a = .error e → applyActionE doc a = .ok doc)
    ∧ (∀ (t : Json) (o : OverlayDoc), o.overlay ≠ "" →
        (∀ a ∈ o.actions, a.target ≠ "") →
        ∃ r, OverlayApplier.apply t o = .ok r) := by
  constructor
  · intro doc a e h hc
    unfold applyActionE
    rw [if_neg h, hc]
  · intro t o hver h
    unfold OverlayApplier.apply
    rw [if_neg hver]
    exact applyActions_ok o.actions (clone t) h

/-- Witness for C4: a concrete action with a malformed query (`$.x[`) whose
body throws is caught as a no-op, and a concrete formal overlay containing
it applies without error. -/
theorem c4_action_errors_caught_witness :
    applyActionE (.obj [("a", .num 1)]) { target := "$.x[" }
      = .ok (.obj [("a", .num 1)])
    ∧ ∃ r, OverlayApplier.apply (.obj [("a", .num 1)])
        { overlay := "1.0.0", actions := [{ target := "$.x[" }] } = .ok r :=
  ⟨c4_action_errors_caught.1 _ _ "jsonpath: bad bracket" (by decide) rfl,
   c4_action_errors_caught.2 _ _ (by decide)
     (by
       intro a ha
       rw [List.mem_singleton] at ha
       subst ha
       decide)⟩

/-- Claim C5 (confirmed).  An action whose target query matches zero nodes
is a silent no-op: `applyAction` returns the document unchanged and throws
nothing. -/
theorem c5_zero_match_noop (doc : Json) (a : Action) (h : a.target ≠ "")
    (hz : evalJP a.target doc = .ok []) : applyActionE doc a = .ok doc := by
  unfold applyActionE
  rw [if_neg h]
  simp [applyActionCore, hz]

/-- Witness for C5: a concrete action targeting `$.nonexistent.path` leaves
a concrete document unchanged. -/
theorem c5_zero_match_noop_witness :
    applyActionE (.obj [("a", .num 1)])
      { target := "$.nonexistent.path", update := some (.obj [("k", .num 9)]) }
      = .ok (.obj [("a", .num 1)]) :=
  c5_zero_match_noop _ _ (by decide) rfl

/-- Claim C6 (code bug).  The engine's own header documents "deep merge
into objects", and its `deepmerge` dependency would indeed produce the
claimed result (second conjunct), but the update action on the matched
object node is in fact a no-op (first conjunct): the generic per-match loop
requires `match.path` to be an array while the query library returns
serialized string paths, so the merge is never applied and the result
differs from the claimed one (third conjunct). -/
theorem c6_update_merge_divergence :
    OverlayApplier.apply (.obj [("o", .obj [("a", .num 1), ("b", .num 2)])])
      { overlay := "1.0.0",
        actions := [{ target := "$.o",
                      update := some (.obj [("b", .num 3), ("c", .num 4)]) }] }
      = .ok (.obj [("o", .obj [("a", .num 1), ("b", .num 2)])])
    ∧ deepmerge (.obj [("a", .num 1), ("b", .num 2)])
        (.obj [("b", .num 3), ("c", .num 4)])
      = .obj [("a", .num 1), ("b", .num 3), ("c", .num 4)]
    ∧ (Json.obj [("o", .obj [("a", .num 1), ("b", .num 2)])])
      ≠ .obj [("o", .obj [("a", .num 1), ("b", .num 3), ("c", .num 4)])] := by
  refine ⟨?_, ?_, by simp⟩
  · rw [OverlayApplier.apply, if_neg (by decide), clone_id]
    rfl
  · simp [deepmerge, mergeEntries, Json.lookupKey, Json.setKey]

/-- Claim C7 (code bug).  The engine's header documents "append to arrays",
but an update action on a matched array node is a no-op: the generic
per-match loop is unreachable (string paths fail its `Array.isArray`
guard), so `{"list":[1,2]}` with update `3` on `$.list` stays `[1,2]`
instead of becoming the claimed `[1,2,3]`. -/
theorem c7_array_append_divergence :
    OverlayApplier.apply (.obj [("list", .arr [.num 1, .num 2])])
      { overlay := "1.0.0",
        actions := [{ target := "$.list", update := some (.num 3) }] }
      = .ok (.obj [("list", .arr [.num 1, .num 2])])
    ∧ (Json.obj [("list", .arr [.num 1, .num 2])])
      ≠ .obj [("list", .arr [.num 1, .num 2, .num 3])] := by
  refine ⟨?_, by simp⟩
  rw [OverlayApplier.apply, if_neg (by decide), clone_id]
  rfl

/-- Claim C8 (code bug).  The engine's header documents `remove`
operations, but a remove action is a no-op for every matched node: no
special-case branch handles `remove` and the generic loop is unreachable,
so `$.paths['/x'].get` with `remove: true` leaves the document unchanged
instead of deleting the `get` key as claimed. -/
theorem c8_remove_divergence :
    OverlayApplier.apply (.obj [("paths", .obj [("/x", .obj [("get", .obj [])])])])
      { overlay := "1.0.0",
        actions := [{ target := "$.paths[" ++ squoteStr ++ "/x" ++ squoteStr ++ "].get",
                      remove := true }] }
      = .ok (.obj [("paths", .obj [("/x", .obj [("get", .obj [])])])])
    ∧ (Json.obj [("paths", .obj [("/x", .obj [("get", .obj [])])])])
      ≠ .obj [("paths", .obj [("/x", .obj [])])] := by
  refine ⟨?_, by simp⟩
  rw [OverlayApplier.apply, if_neg (by decide), clone_id]
  rfl

/-- Claim C9 (confirmed).  Applying formal overlay `A` and then `B` to the
result equals applying the single combined formal overlay whose action list
is `A`'s actions followed by `B`'s; application is a pure function of the
`(target, overlay)` pair, so it is deterministic by construction. -/
theorem c9_sequential_composition (t : Json) (A B : OverlayDoc)
    (hA : A.overlay ≠ "") (hB : B.overlay ≠ "") :
    (match OverlayApplier.apply t A with
     | .error e => .error e
     | .ok r => OverlayApplier.apply r B)
      = OverlayApplier.apply t (combineOverlays A B) := by
  unfold OverlayApplier.apply
  have hco : (combineOverlays A B).overlay = A.overlay := rfl
  have hca : (combineOverlays A B).actions = A.actions ++ B.actions := rfl
  rw [hco, hca, if_neg hA, if_neg hA, applyActions_append]
  cases applyActions (clone t) A.actions with
  | error e => rfl
  | ok r =>
      show (if B.overlay = "" then Except.error versionErrMsg
            else applyActions (clone r) B.actions)
        = applyActions r B.actions
      rw [if_neg hB, clone_id]

/-- Witness for C9: two concrete formal overlays — one patching nothing,
one carrying a no-target-match action — compose into their concatenation. -/
theorem c9_sequential_composition_witness :
    (match OverlayApplier.apply (.obj [("a", .num 1)])
        { overlay := "1.0.0", actions := [] } with
     | .error e => .error e
     | .ok r => OverlayApplier.apply r
         { overlay := "2.0.0", actions := [{ target := "$.missing" }] })
      = OverlayApplier.apply (.obj [("a", .num 1)])
          (combineOverlays { overlay := "1.0.0", actions := [] }
            { overlay := "2.0.0", actions := [{ target := "$.missing" }] }) :=
  c9_sequential_composition (.obj [("a", .num 1)])
    { overlay := "1.0.0", actions := [] }
    { overlay := "2.0.0", actions := [{ target := "$.missing" }] }
    (by decide) (by decide)

/-- Claim C10 (confirmed).  In formal mode, an update action whose target
expression contains `parameters[?(@.name==` and whose update value is a
(truthy) object bypasses the generic per-match algorithm once the branch is
reached (matches nonempty, the `$.paths[...].get` branch not taken, both
text extractions succeeding): the result is exactly `specialParams` — the
path and the parameter name are read out of the expression text, the HTTP
method is chosen by substring tests with default `get` (`methodOf`), and
the update is deep-merged into the first parameter whose `name` equals the
extracted name, the parameter's `in` field never being consulted
(`findParamIdx`).  When no parameter of that name exists the document is
returned unchanged (second conjunct). -/
theorem c10_parameter_special_case (doc : Json) (a : Action) (u : Json)
    (p n : String) (ms : List Json)
    (htgt : a.target ≠ "")
    (hev : evalJP a.target doc = .ok ms)
    (hms : ms ≠ [])
    (hsub : strHasSub a.target "parameters[?(@.name==" = true)
    (hupd : updObj? a.update = some u)
    (hnot2 : strStarts a.target "$.paths[" = false ∨ strEnds a.target "].get" = false)
    (hp : extractPathQ a.target = some p)
    (hn : extractNameQ a.target = some n) :
    applyActionE doc a
      = .ok (match specialParams doc p (methodOf a.target) n u with
             | .ok d => d
             | .error _ => doc)
    ∧ ∀ (d' v1 v2 v3 : Json) (ps : List Json),
        jsGetF d' "paths" = .ok (some v1) →
        jsGetF v1 p = .ok (some v2) →
        jsGetF v2 (methodOf a.target) = .ok (some v3) →
        jsGetF v3 "parameters" = .ok (some (.arr ps)) →
        findParamIdx n ps = .ok none →
        specialParams d' p (methodOf a.target) n u = .ok d' := by
  constructor
  · have hni : a.target ≠ "$.info" := by
      intro hh
      rw [hh] at hsub
      exact absurd hsub (by decide)
    have hb2 : (strStarts a.target "$.paths[" && strEnds a.target "].get") = false := by
      rcases hnot2 with h2 | h2 <;> simp [h2]
    have hcore : applyActionCore doc a
        = specialParams doc p (methodOf a.target) n u := by
      simp only [applyActionCore, hev, hupd, hb2, hsub, hp, hn, Option.isSome_some,
        Bool.and_true, Bool.true_and, Bool.false_eq_true, if_false, if_true,
        Option.getD_some]
      rw [if_neg (by simp [hms]), if_neg fun hc => hni hc.1]
    unfold applyActionE
    rw [if_neg htgt, hcore]
    cases specialParams doc p (methodOf a.target) n u with
    | error e => rfl
    | ok d => rfl
  · intro d' v1 v2 v3 ps h1 h2 h3 h4 hfind
    simp only [specialParams, h1, h2, h3, h4, hfind]

/-- Witness for C10: the engine's own test expression
`$.paths['/pets'].get.parameters[?(@.name=='petId')]` with an object update
against a petstore-shaped document takes the parameter special case. -/
theorem c10_parameter_special_case_witness :
    applyActionE
      (.obj [("paths", .obj [("/pets", .obj [("get", .obj [("parameters",
        .arr [.obj [("name", .str "petId"), ("in", .str "path")]])])])])])
      { target := "$.paths[" ++ squoteStr ++ "/pets" ++ squoteStr
          ++ "].get.parameters[?(@.name==" ++ squoteStr ++ "petId" ++ squoteStr ++ ")]",
        update := some (.obj [("description", .str "Enhanced")]) }
      = .ok (match specialParams
               (.obj [("paths", .obj [("/pets", .obj [("get", .obj [("parameters",
                 .arr [.obj [("name", .str "petId"), ("in", .str "path")]])])])])])
               "/pets"
               (methodOf ("$.paths[" ++ squoteStr ++ "/pets" ++ squoteStr
                 ++ "].get.parameters[?(@.name==" ++ squoteStr ++ "petId" ++ squoteStr
                 ++ ")]"))
               "petId" (.obj [("description", .str "Enhanced")]) with
             | .ok d => d
             | .error _ =>
                 .obj [("paths", .obj [("/pets", .obj [("get", .obj [("parameters",
                   .arr [.obj [("name", .str "petId"), ("in", .str "path")]])])])])]) :=
  (c10_parameter_special_case
    (.obj [("paths", .obj [("/pets", .obj [("get", .obj [("parameters",
      .arr [.obj [("name", .str "petId"), ("in", .str "path")]])])])])])
    { target := "$.paths[" ++ squoteStr ++ "/pets" ++ squoteStr
        ++ "].get.parameters[?(@.name==" ++ squoteStr ++ "petId" ++ squoteStr ++ ")]",
      update := some (.obj [("description", .str "Enhanced")]) }
    (.obj [("description", .str "Enhanced")])
    "/pets" "petId"
    [.obj [("name", .str "petId"), ("in", .str "path")]]
    (by decide) rfl (by simp) rfl rfl (Or.inr rfl) rfl rfl).1

end OverlaySpec
